import Mathlib

/-!
Verification of the landelayo calendar engine: recurrence expansion and
override merging (src/landelayo/models.py), the unique key codec and the
occurrence upsert (src/landelayo/serializers.py), the period window
calculator (src/landelayo/utils.py) and the upcoming query pipeline
(src/landelayo/occurrences.py, src/landelayo/views.py).

Instants are modelled as microseconds since 1970-01-01 (Int), calendar
dates as day numbers since 1970-01-01 (Int), and byte strings as lists
of byte values (List Nat).  The dateutil rrule iterator is external
library code, so the expansion step is parameterized by the iterator
(an arbitrary function producing the list of candidate starts); the
theorems about the merge logic hold for every iterator.
-/

namespace Landelayo

/-- Microseconds in one day. -/
def usday : Int := 86400000000

/-- Python datetime.date() of an instant: floor division by the day length. -/
def dateOf (t : Int) : Int := t / usday

/-- Python datetime.combine(d, time.min): first microsecond of the day. -/
def dayTimeMin (d : Int) : Int := d * usday

/-- Python datetime.combine(d, time.max): last microsecond of the day. -/
def dayTimeMax (d : Int) : Int := d * usday + (usday - 1)

/-- A civil (year, month, day) date, used to express concrete calendar dates. -/
structure Civil where
  y : Int
  m : Int
  d : Int
  deriving DecidableEq

/-- Day number of a civil date, counted from 1970-01-01, proleptic Gregorian
(standard days-from-civil algorithm). -/
def daysFromCivil (c : Civil) : Int :=
  let y := if c.m ≤ 2 then c.y - 1 else c.y
  let era := y / 400
  let yoe := y - era * 400
  let mp := (c.m + 9) % 12
  let doy := (153 * mp + 2) / 5 + c.d - 1
  let doe := yoe * 365 + yoe / 4 - yoe / 100 + doy
  era * 146097 + doe - 719468

/-- Python date.isoweekday() of a day number: Monday = 1 .. Sunday = 7
(1970-01-01, day number 0, was a Thursday). -/
def isoweekday (dn : Int) : Int := (dn + 3) % 7 + 1

/-- Frequency enum of src/landelayo/enum.py. -/
inductive Frequency
  | YEARLY
  | MONTHLY
  | WEEKLY
  | DAILY
  | HOURLY
  deriving DecidableEq

/-- Mapping of Frequency to the dateutil rrule frequency constants. -/
def Frequency.to_rrule : Frequency → Nat
  | .YEARLY => 0
  | .MONTHLY => 1
  | .WEEKLY => 2
  | .DAILY => 3
  | .HOURLY => 4

/-- Period enum of src/landelayo/enum.py (the by-rule axis). -/
inductive PeriodRule
  | BY_YEAR_DAY
  | BY_MONTH
  | BY_MONTH_DAY
  | BY_WEEK_NO
  | BY_WEEK_DAY
  | BY_HOUR
  deriving DecidableEq

/-- Mapping of PeriodRule to the dateutil rrule keyword argument names. -/
def PeriodRule.to_rrule : PeriodRule → String
  | .BY_YEAR_DAY => "byyearday"
  | .BY_MONTH => "bymonth"
  | .BY_MONTH_DAY => "bymonthday"
  | .BY_WEEK_NO => "byweekno"
  | .BY_WEEK_DAY => "byweekday"
  | .BY_HOUR => "byhour"

/-- The period entry of a stored recurrence: a rule name and a sequence. -/
structure RecurrencePeriod where
  rule : PeriodRule
  sequence : List Int
  deriving DecidableEq

/-- A stored recurrence specification (the Event.recurrence JSON value as
validated by RecurrenceSerializer): optional keys are Options; until is a
date (day number). -/
structure Recurrence where
  frequency : Frequency
  count : Option Nat
  interval : Option Nat
  until_date : Option Int
  period : Option RecurrencePeriod
  deriving DecidableEq

/-- The keyword arguments dictionary built by Event.get_rule. -/
structure RRuleKwargs where
  freq : Nat
  count : Option Nat
  interval : Option Nat
  until_date : Option Int
  byrule : Option (String × List Int)
  deriving DecidableEq

/-- Event.get_rule of src/landelayo/models.py: convert the stored recurrence
into the rrule keyword arguments; note that an until value is copied into the
kwargs. -/
def get_rule (r : Recurrence) : RRuleKwargs :=
  { freq := r.frequency.to_rrule
    count := r.count
    interval := r.interval
    until_date := r.until_date
    byrule := r.period.map (fun p => (p.rule.to_rrule, p.sequence)) }

/-- An Occurrence row (src/landelayo/models.py).  A persisted row has
id = some pk; a transient materialized occurrence has id = none. -/
structure Occurrence where
  id : Option Nat
  event_id : Nat
  title : String
  description : String
  start_date : Int
  end_date : Int
  cancelled : Bool
  original_start_date : Int
  original_end_date : Int
  deriving DecidableEq

/-- An Event row (src/landelayo/models.py), restricted to the fields the
expansion engine reads. -/
structure Event where
  id : Nat
  title : String
  description : String
  start_date : Int
  end_date : Int
  calendar : String
  recurrence : Option Recurrence
  deriving DecidableEq

/-- Event.is_occurrence_saved: first saved occurrence whose original start
and end both equal the given slot, or none.  The lookup reads only the
original dates, never the current ones. -/
def is_occurrence_saved (st : List Occurrence) (s e : Int) : Option Occurrence :=
  st.find? (fun o => decide (o.original_start_date = s ∧ o.original_end_date = e))

/-- Event.occurrence_in_range: saved occurrences whose current start date is
at least the window start and whose current end date is at most the window
end, in their stored order. -/
def occurrence_in_range (st : List Occurrence) (s e : Int) : List Occurrence :=
  st.filter (fun o => decide (s ≤ o.start_date ∧ o.end_date ≤ e))

/-- Event.create_occurrence: default the end to start plus the event
duration; if a saved occurrence matches the slot, consume it (exclude its id
from the saved set) and return it, otherwise return a fresh transient
occurrence copying the event fields.  The pair is (returned occurrence,
updated saved set). -/
def create_occurrence (ev : Event) (st : List Occurrence) (s : Int) (edOpt : Option Int) :
    Occurrence × List Occurrence :=
  let ed := edOpt.getD (s + (ev.end_date - ev.start_date))
  match is_occurrence_saved st s ed with
  | some saved => (saved, st.filter (fun o => decide (¬ o.id = saved.id)))
  | none =>
    ({ id := none, event_id := ev.id, title := ev.title, description := ev.description,
       start_date := s, end_date := ed, cancelled := false,
       original_start_date := s, original_end_date := ed }, st)

/-- The loop of Event.occurrence_between over the iterator output: keep the
slots inside the window, materialize each through create_occurrence threading
the saved set, and return (collected occurrences in order, final saved set). -/
def expandSlots (ev : Event) (lo hi : Int) : List Int → List Occurrence → List Occurrence × List Occurrence
  | [], st => ([], st)
  | t :: ts, st =>
    if lo ≤ t ∧ t ≤ hi then
      let p := create_occurrence ev st t none
      let rest := expandSlots ev lo hi ts p.2
      (p.1 :: rest.1, rest.2)
    else
      expandSlots ev lo hi ts st

instance {ε α : Type} [DecidableEq ε] [DecidableEq α] : DecidableEq (Except ε α) := fun a b =>
  match a, b with
  | .error e, .error f =>
    if h : e = f then .isTrue (by simp [h]) else .isFalse (by simp [h])
  | .ok x, .ok y =>
    if h : x = y then .isTrue (by simp [h]) else .isFalse (by simp [h])
  | .error _, .ok _ => .isFalse (by simp)
  | .ok _, .error _ => .isFalse (by simp)

/-- Python-level failures the engine can raise. -/
inductive PyErr
  | duplicateUntilKwarg
  | combineNoneDate
  deriving DecidableEq

/-- The external rrule iterator: given dtstart, the call-site until bound and
the compiled keyword arguments, produce the candidate starts. -/
abbrev RGen : Type := Int → Int → RRuleKwargs → List Int

/-- Event.occurrence_between of src/landelayo/models.py.  st is the saved
occurrence set of the event (self.occurrences.all()).  For a non-recurring
event, overlap decides a single slot.  For a recurring event: empty if the
event starts after the window, empty if the stored until date is before the
window start date; otherwise Python calls
rrule(dtstart=self.start_date, until=end_date, **rules) where the kwargs
returned by get_rule already contain an until key whenever the recurrence
has one, so that call raises TypeError (duplicate keyword argument) before
any iteration; with no until key the iterator output is merged and the
still-in-range leftovers of the saved set are appended. -/
def occurrence_between (gen : RGen) (ev : Event) (st : List Occurrence)
    (start_date end_date : Int) : Except PyErr (List Occurrence) :=
  match ev.recurrence with
  | none =>
    if ev.start_date < end_date ∧ ev.end_date > start_date then
      .ok [(create_occurrence ev st ev.start_date none).1]
    else
      .ok []
  | some r =>
    if ev.start_date > end_date then .ok []
    else
      match r.until_date with
      | some u =>
        if u < dateOf start_date then .ok []
        else .error .duplicateUntilKwarg
      | none =>
        let p := expandSlots ev start_date end_date (gen ev.start_date end_date (get_rule r)) st
        .ok (p.1 ++ occurrence_in_range p.2 start_date end_date)

/-- The urlsafe base64 alphabet as byte values: A-Z, a-z, 0-9, minus,
underscore. -/
def b64alphabet : List Nat :=
  [65, 66, 67, 68, 69, 70, 71, 72, 73, 74, 75, 76, 77, 78, 79, 80, 81, 82,
   83, 84, 85, 86, 87, 88, 89, 90,
   97, 98, 99, 100, 101, 102, 103, 104, 105, 106, 107, 108, 109, 110, 111,
   112, 113, 114, 115, 116, 117, 118, 119, 120, 121, 122,
   48, 49, 50, 51, 52, 53, 54, 55, 56, 57, 45, 95]

/-- Byte value of the padding character. -/
def padByte : Nat := 61

/-- Character of a six-bit value. -/
def sextetToChar (s : Nat) : Nat := b64alphabet.getD s 0

/-- Six-bit value of an alphabet character, none for anything else. -/
def charToSextet (c : Nat) : Option Nat := b64alphabet.findIdx? (fun a => a == c)

/-- Python base64.urlsafe_b64encode on a byte string: three input bytes
become four alphabet characters; a final group of one or two bytes is
completed with padding characters. -/
def b64encode : List Nat → List Nat
  | [] => []
  | [b0] =>
    [sextetToChar (b0 / 4), sextetToChar (b0 % 4 * 16), padByte, padByte]
  | [b0, b1] =>
    [sextetToChar (b0 / 4), sextetToChar (b0 % 4 * 16 + b1 / 16),
     sextetToChar (b1 % 16 * 4), padByte]
  | b0 :: b1 :: b2 :: rest =>
    sextetToChar (b0 / 4) :: sextetToChar (b0 % 4 * 16 + b1 / 16) ::
    sextetToChar (b1 % 16 * 4 + b2 / 64) :: sextetToChar (b2 % 64) ::
    b64encode rest

/-- Quad-wise base64 decoding of a character string already stripped of
foreign characters: groups of four characters yield three bytes; a final
group may end in one or two padding characters; anything else (a group of
fewer than four characters, or padding that is not final) is a decoding
error, reported as none. -/
def quadDecode : List Nat → Option (List Nat)
  | [] => some []
  | c0 :: c1 :: c2 :: c3 :: rest =>
    match charToSextet c0, charToSextet c1 with
    | some s0, some s1 =>
      if c2 = padByte then
        if c3 = padByte ∧ rest = [] then some [s0 * 4 + s1 / 16] else none
      else
        match charToSextet c2 with
        | some s2 =>
          if c3 = padByte then
            if rest = [] then some [s0 * 4 + s1 / 16, s1 % 16 * 16 + s2 / 4]
            else none
          else
            match charToSextet c3 with
            | some s3 =>
              (quadDecode rest).map
                (fun tail => (s0 * 4 + s1 / 16) :: (s1 % 16 * 16 + s2 / 4) ::
                  (s2 % 4 * 64 + s3) :: tail)
            | none => none
        | none => none
    | _, _ => none
  | _ => none

/-- Model of Python base64.urlsafe_b64decode acceptance and result: foreign
characters are discarded (as binascii does in non-strict mode), then the
remaining characters must form valid padded quads; none models the ValueError
raised on invalid input. -/
def pyUrlsafeB64decode (input : List Nat) : Option (List Nat) :=
  quadDecode (input.filter (fun c => (charToSextet c).isSome || c == padByte))

/-- Byte value of the underscore separator. -/
def underscore : Nat := 95

/-- Python str.split on the underscore character: the list of separated
fields, always at least one field. -/
def splitUnderscore : List Nat → List (List Nat)
  | [] => [[]]
  | c :: rest =>
    let r := splitUnderscore rest
    if c = underscore then [] :: r
    else
      match r with
      | h :: t => (c :: h) :: t
      | [] => [[c]]

/-- OccurrenceSerializer.get_unique_key of src/landelayo/serializers.py on
the three rendered fields: join the renderings of the event id and the two
original dates with underscores, then urlsafe base64 encode the bytes. -/
def get_unique_key (eventId origStart origEnd : List Nat) : List Nat :=
  b64encode (eventId ++ underscore :: (origStart ++ underscore :: origEnd))

/-- Validation failures of the serializers. -/
inductive ValidationErr
  | malformedKey
  | datesRequired
  | invalidDateRange
  deriving DecidableEq

/-- The submitted payload of an occurrence upsert (OccurrenceSerializer
validated_data): an optional numeric id, the unique key, and the new field
values. -/
structure UpsertData where
  occurrence_id : Option Nat
  occurrence_key : List Nat
  title : String
  description : String
  start_date : Int
  end_date : Int
  cancelled : Bool
  deriving DecidableEq

/-- A new occurrence row as constructed by OccurrenceSerializer.create
before saving: the original dates are the decoded byte strings, and the row
is attached to the event supplied in the serializer context. -/
structure PendingOccurrence where
  event_id : Nat
  original_start_s : List Nat
  original_end_s : List Nat
  title : String
  description : String
  start_date : Int
  end_date : Int
  cancelled : Bool
  deriving DecidableEq

/-- Outcome of an occurrence upsert: an existing row updated in place, or a
new row created. -/
inductive UpsertResult
  | updated (o : Occurrence)
  | created (p : PendingOccurrence)
  deriving DecidableEq

/-- Occurrence.objects.filter(id=occurrence_id, event=event).first(): none
when no id was supplied (id=None matches no row) or no row of this event has
the id. -/
def occLookup (ev : Event) (db : List Occurrence) (occId : Option Nat) : Option Occurrence :=
  match occId with
  | none => none
  | some i => db.find? (fun o => o.id == some i && o.event_id == ev.id)

/-- OccurrenceSerializer.create of src/landelayo/serializers.py: look the
occurrence up by the supplied id for the context event; when found, update it
in place with the submitted fields.  Otherwise decode the unique key and
split the decoded bytes on underscores; a decoding failure or a split into
anything but exactly three fields raises ValidationError (no row is created
or updated); on success a new row is built for the context event carrying
the second and third decoded fields as its original dates (the first decoded
field, the rendered event id, is not used) plus the submitted fields. -/
def occurrenceCreate (ev : Event) (db : List Occurrence) (vd : UpsertData) :
    Except ValidationErr UpsertResult :=
  match occLookup ev db vd.occurrence_id with
  | some inst =>
    .ok (.updated { inst with
                    title := vd.title
                    description := vd.description
                    start_date := vd.start_date
                    end_date := vd.end_date
                    cancelled := vd.cancelled })
  | none =>
    match pyUrlsafeB64decode vd.occurrence_key with
    | none => .error .malformedKey
    | some decoded =>
      match splitUnderscore decoded with
      | [_eid, os, oe] =>
        .ok (.created { event_id := ev.id
                        original_start_s := os
                        original_end_s := oe
                        title := vd.title
                        description := vd.description
                        start_date := vd.start_date
                        end_date := vd.end_date
                        cancelled := vd.cancelled })
      | _ => .error .malformedKey

/-- UpcomingPeriod enum of src/landelayo/enum.py. -/
inductive UpcomingPeriod
  | DAY
  | WEEK
  | MONTH
  | YEAR
  | CUSTOM
  deriving DecidableEq

/-- The validated query parameters of the upcoming endpoint (ParamSerializer
fields; the dates are day numbers; the calendar filter is a calendar name). -/
structure RequestParams where
  period : UpcomingPeriod
  calendar : Option String
  from_date : Option Int
  to_date : Option Int
  deriving DecidableEq

/-- ParamSerializer.validate of src/landelayo/serializers.py: for the CUSTOM
period a missing bound is rejected, then a from date after the to date is
rejected; every other period passes unchanged. -/
def paramValidate (p : RequestParams) : Except ValidationErr RequestParams :=
  match p.period with
  | .CUSTOM =>
    match p.from_date, p.to_date with
    | some f, some t =>
      if f > t then .error .invalidDateRange else .ok p
    | _, _ => .error .datesRequired
  | _ => .ok p

/-- Number of days of a month (calendar.monthrange second component). -/
def monthDays (y m : Int) : Int :=
  if m = 2 then (if (y % 4 = 0 ∧ ¬ y % 100 = 0) ∨ y % 400 = 0 then 29 else 28)
  else if m = 4 ∨ m = 6 ∨ m = 9 ∨ m = 11 then 30 else 31

/-- A resolved window of instants. -/
structure DateRange where
  from_date : Int
  to_date : Int
  deriving DecidableEq

/-- period_days of src/landelayo/utils.py: resolve the named period against
the current date into a window of instants; the WEEK window runs from today
minus isoweekday(today) days to six days later; the CUSTOM window combines
the supplied dates, and raises TypeError when a bound is missing (Python
datetime.combine on None), which validation makes unreachable. -/
def period_days (today : Civil) (p : RequestParams) : Except PyErr DateRange :=
  match p.period with
  | .DAY =>
    .ok { from_date := dayTimeMin (daysFromCivil today),
          to_date := dayTimeMax (daysFromCivil today) }
  | .WEEK =>
    let start := daysFromCivil today - isoweekday (daysFromCivil today)
    .ok { from_date := dayTimeMin start, to_date := dayTimeMax (start + 6) }
  | .MONTH =>
    .ok { from_date := dayTimeMin (daysFromCivil { y := today.y, m := today.m, d := 1 }),
          to_date := dayTimeMax (daysFromCivil
            { y := today.y, m := today.m, d := monthDays today.y today.m }) }
  | .YEAR =>
    .ok { from_date := dayTimeMin (daysFromCivil { y := today.y, m := 1, d := 1 }),
          to_date := dayTimeMax (daysFromCivil { y := today.y + 1, m := 1, d := 1 }) }
  | .CUSTOM =>
    match p.from_date, p.to_date with
    | some f, some t => .ok { from_date := dayTimeMin f, to_date := dayTimeMax t }
    | _, _ => .error .combineNoneDate

/-- Errors surfaced by the upcoming endpoint: a validation rejection or a
Python-level failure inside expansion. -/
inductive ApiErr
  | validation (e : ValidationErr)
  | py (e : PyErr)
  deriving DecidableEq

/-- The per-event loop of upcoming_occurrences: concatenate the expansion
results of the events in order; an exception anywhere aborts the whole
request. -/
def collectOccs (gen : RGen) (dr : DateRange) :
    List (Event × List Occurrence) → Except PyErr (List Occurrence)
  | [] => .ok []
  | (ev, st) :: rest =>
    match occurrence_between gen ev st dr.from_date dr.to_date with
    | .error e => .error e
    | .ok os =>
      match collectOccs gen dr rest with
      | .error e => .error e
      | .ok tail => .ok (os ++ tail)

/-- upcoming_occurrences of src/landelayo/occurrences.py: filter the events
by calendar name when a filter is supplied, resolve the window, expand every
event and concatenate in input order. -/
def upcoming_occurrences (gen : RGen) (today : Civil) (p : RequestParams)
    (events : List (Event × List Occurrence)) : Except PyErr (List Occurrence) :=
  let evs := match p.calendar with
    | some c => events.filter (fun e => e.1.calendar == c)
    | none => events
  match period_days today p with
  | .error e => .error e
  | .ok dr => collectOccs gen dr evs

/-- UpcomingViewSet.list of src/landelayo/views.py: validate the query
parameters first; only when validation passes is the window resolved and any
expansion or materialization work performed. -/
def listUpcoming (gen : RGen) (today : Civil) (p : RequestParams)
    (events : List (Event × List Occurrence)) : Except ApiErr (List Occurrence) :=
  match paramValidate p with
  | .error e => .error (.validation e)
  | .ok q =>
    match upcoming_occurrences gen today q events with
    | .error e => .error (.py e)
    | .ok os => .ok os

/-! Concrete fixtures used to evaluate the definitions at specific inputs. -/

/-- An iterator producing no candidate starts. -/
def genEmpty : RGen := fun _ _ _ => []

/-- An iterator producing the single candidate start 0. -/
def genOne : RGen := fun _ _ _ => [0]

/-- A non-recurring event running from instant 0 to instant 60. -/
def evPlain : Event :=
  { id := 1, title := "Event", description := "Desc", start_date := 0, end_date := 60,
    calendar := "work", recurrence := none }

/-- A persisted override of the slot (0, 60) of evPlain whose current start
was edited to 30. -/
def ovEdited : Occurrence :=
  { id := some 1, event_id := 1, title := "Edited", description := "Desc",
    start_date := 30, end_date := 60, cancelled := false,
    original_start_date := 0, original_end_date := 60 }

/-- A daily recurrence closing on 2024-02-01 (day number 19754). -/
def recUntil : Recurrence :=
  { frequency := .DAILY, count := none, interval := none,
    until_date := some 19754, period := none }

/-- An event on 2024-01-01 recurring daily until 2024-02-01. -/
def evUntil : Event :=
  { id := 1, title := "Event", description := "Desc",
    start_date := dayTimeMin 19723, end_date := dayTimeMin 19723 + 3600000000,
    calendar := "work", recurrence := some recUntil }

/-- A daily recurrence of five occurrences with no until date. -/
def recDaily : Recurrence :=
  { frequency := .DAILY, count := some 5, interval := none,
    until_date := none, period := none }

/-- An event from instant 0 to instant 60 recurring daily, five times, with
no until date. -/
def evDaily : Event :=
  { id := 1, title := "Event", description := "Desc", start_date := 0, end_date := 60,
    calendar := "work", recurrence := some recDaily }

/-- The transient occurrence evDaily materializes for the slot starting at
instant 0. -/
def trDaily0 : Occurrence :=
  { id := none, event_id := 1, title := "Event", description := "Desc",
    start_date := 0, end_date := 60, cancelled := false,
    original_start_date := 0, original_end_date := 60 }

/-- A recurring event whose start instant 5000 lies after the window
0 .. 1000. -/
def evLate : Event :=
  { id := 1, title := "Event", description := "Desc", start_date := 5000,
    end_date := 5060, calendar := "work", recurrence := some recDaily }

/-- A persisted override of evDaily whose original slot (-100, -40) is no
longer produced by the rule but whose current dates (500, 560) are inside
the window 0 .. 1000. -/
def ovOrphan : Occurrence :=
  { id := some 2, event_id := 1, title := "Moved", description := "Desc",
    start_date := 500, end_date := 560, cancelled := false,
    original_start_date := -100, original_end_date := -40 }

/-- An upsert payload with no numeric id whose key encodes 999_a_b, naming
event 999 while the request is made against event 1. -/
def vdForeign : UpsertData :=
  { occurrence_id := none, occurrence_key := b64encode [57, 57, 57, 95, 97, 95, 98],
    title := "T", description := "E", start_date := 0, end_date := 60, cancelled := false }

/-- The row created for vdForeign against evPlain. -/
def pendForeign : PendingOccurrence :=
  { event_id := 1, original_start_s := [97], original_end_s := [98],
    title := "T", description := "E", start_date := 0, end_date := 60, cancelled := false }

/-- An upsert payload whose key is two characters and cannot base64-decode. -/
def vdBadKey : UpsertData :=
  { occurrence_id := none, occurrence_key := [77, 86],
    title := "T", description := "E", start_date := 0, end_date := 60, cancelled := false }

/-- A CUSTOM query running from 2024-01-01 back to 2023-12-01. -/
def pCustomBad : RequestParams :=
  { period := .CUSTOM, calendar := none,
    from_date := some (daysFromCivil { y := 2024, m := 1, d := 1 }),
    to_date := some (daysFromCivil { y := 2023, m := 12, d := 1 }) }

/-- A WEEK query. -/
def pWeek : RequestParams :=
  { period := .WEEK, calendar := none, from_date := none, to_date := none }

/-! Helper lemmas about the materialization loop. -/

theorem create_occurrence_eq_saved {ev : Event} {st : List Occurrence} {s : Int}
    {saved : Occurrence}
    (h : is_occurrence_saved st s (s + (ev.end_date - ev.start_date)) = some saved) :
    create_occurrence ev st s none =
      (saved, st.filter (fun o => decide (¬ o.id = saved.id))) := by
  simp [create_occurrence, h]

theorem create_occurrence_eq_new {ev : Event} {st : List Occurrence} {s : Int}
    (h : is_occurrence_saved st s (s + (ev.end_date - ev.start_date)) = none) :
    create_occurrence ev st s none =
      ({ id := none, event_id := ev.id, title := ev.title, description := ev.description,
         start_date := s, end_date := s + (ev.end_date - ev.start_date), cancelled := false,
         original_start_date := s,
         original_end_date := s + (ev.end_date - ev.start_date) }, st) := by
  simp [create_occurrence, h]

theorem count_eq_one_of_mem_of_nodup_ids {o : Occurrence} {st : List Occurrence}
    (hmem : o ∈ st) (hnd : (st.map Occurrence.id).Nodup) : st.count o = 1 := by
  have h1 : 0 < st.count o := List.count_pos_iff.mpr hmem
  have h2 : st.count o ≤ 1 :=
    (List.nodup_iff_count_le_one.mp (List.Nodup.of_map Occurrence.id hnd)) o
  omega

theorem count_filter_out_self {saved : Occurrence} {st : List Occurrence} :
    (st.filter (fun o => decide (¬ o.id = saved.id))).count saved = 0 := by
  rw [List.count_eq_zero]
  intro hmem
  have := (List.mem_filter.mp hmem).2
  simp at this

theorem count_filter_out_other {o saved : Occurrence} {st : List Occurrence}
    (hnd : (st.map Occurrence.id).Nodup) (hsm : saved ∈ st) (hne : ¬ o = saved) :
    (st.filter (fun x => decide (¬ x.id = saved.id))).count o = st.count o := by
  by_cases hmem : o ∈ st
  · have hid : ¬ o.id = saved.id := by
      intro h
      exact hne (List.inj_on_of_nodup_map hnd hmem hsm h)
    exact List.count_filter (by simpa using hid)
  · rw [List.count_eq_zero.mpr hmem, List.count_eq_zero]
    intro h
    exact hmem (List.mem_filter.mp h).1

theorem count_cons_transient {o c : Occurrence} {n : Nat} (hid : o.id = some n)
    (hc : c.id = none) (l : List Occurrence) : (c :: l).count o = l.count o := by
  have hne : ¬ c = o := by
    intro h
    rw [h, hid] at hc
    cases hc
  simp [List.count_cons, hne]

theorem expandSlots_nil (ev : Event) (lo hi : Int) (st : List Occurrence) :
    expandSlots ev lo hi [] st = ([], st) := rfl

theorem expandSlots_cons_in {ev : Event} {lo hi t : Int} {ts : List Int}
    {st : List Occurrence} (hw : lo ≤ t ∧ t ≤ hi) :
    expandSlots ev lo hi (t :: ts) st =
      ((create_occurrence ev st t none).1 ::
         (expandSlots ev lo hi ts (create_occurrence ev st t none).2).1,
       (expandSlots ev lo hi ts (create_occurrence ev st t none).2).2) := by
  simp only [expandSlots]
  rw [if_pos hw]

theorem expandSlots_cons_out {ev : Event} {lo hi t : Int} {ts : List Int}
    {st : List Occurrence} (hw : ¬ (lo ≤ t ∧ t ≤ hi)) :
    expandSlots ev lo hi (t :: ts) st = expandSlots ev lo hi ts st := by
  simp only [expandSlots]
  rw [if_neg hw]

theorem expandSlots_sublist (ev : Event) (lo hi : Int) :
    ∀ (ts : List Int) (st : List Occurrence), (expandSlots ev lo hi ts st).2.Sublist st
  | [], _ => by rw [expandSlots_nil]
  | t :: ts, st => by
    by_cases hw : lo ≤ t ∧ t ≤ hi
    · rw [expandSlots_cons_in hw]
      cases h : is_occurrence_saved st t (t + (ev.end_date - ev.start_date)) with
      | some saved =>
        rw [create_occurrence_eq_saved h]
        exact (expandSlots_sublist ev lo hi ts _).trans (List.filter_sublist st)
      | none =>
        rw [create_occurrence_eq_new h]
        exact expandSlots_sublist ev lo hi ts st
    · rw [expandSlots_cons_out hw]
      exact expandSlots_sublist ev lo hi ts st

theorem expandSlots_count {o : Occurrence} {n : Nat} (ev : Event) (lo hi : Int)
    (hid : o.id = some n) :
    ∀ (ts : List Int) (st : List Occurrence), (st.map Occurrence.id).Nodup →
      (expandSlots ev lo hi ts st).1.count o + (expandSlots ev lo hi ts st).2.count o
        = st.count o
  | [], st, _ => by rw [expandSlots_nil]; simp
  | t :: ts, st, hnd => by
    by_cases hw : lo ≤ t ∧ t ≤ hi
    · rw [expandSlots_cons_in hw]
      cases h : is_occurrence_saved st t (t + (ev.end_date - ev.start_date)) with
      | some saved =>
        rw [create_occurrence_eq_saved h]
        dsimp only
        have hsm : saved ∈ st := List.mem_of_find?_eq_some h
        have hndf : ((st.filter (fun x => decide (¬ x.id = saved.id))).map
            Occurrence.id).Nodup :=
          List.Nodup.sublist ((List.filter_sublist st).map Occurrence.id) hnd
        have ih := expandSlots_count ev lo hi hid ts
          (st.filter (fun x => decide (¬ x.id = saved.id))) hndf
        by_cases ho : saved = o
        · subst ho
          have hz : (st.filter (fun x => decide (¬ x.id = saved.id))).count saved = 0 :=
            count_filter_out_self
          have hone : st.count saved = 1 := count_eq_one_of_mem_of_nodup_ids hsm hnd
          simp only [List.count_cons, beq_self_eq_true, if_true]
          simp only [hz] at ih
          omega
        · have hne : ¬ o = saved := fun h2 => ho h2.symm
          have hco : (st.filter (fun x => decide (¬ x.id = saved.id))).count o
              = st.count o := count_filter_out_other hnd hsm hne
          simp only [List.count_cons, beq_iff_eq, if_neg ho]
          simp only [hco] at ih
          omega
      | none =>
        rw [create_occurrence_eq_new h]
        dsimp only
        have ih := expandSlots_count ev lo hi hid ts st hnd
        rw [count_cons_transient hid rfl]
        omega
    · rw [expandSlots_cons_out hw]
      exact expandSlots_count ev lo hi hid ts st hnd

/-! Claim theorems. -/

/-- C1: for an event whose recurrence carries an until value that is not
earlier than the window start date, occurrence_between does not return a
result: the rrule call receives the until keyword twice (once from the call
site, once from the get_rule kwargs) and raises TypeError.  The spec states
expansion always succeeds on valid inputs, so this is a defect of the code,
exhibited here at a concrete input. -/
theorem until_recurrence_expansion_raises :
    evUntil.recurrence = some recUntil ∧
    recUntil.count = none ∧
    ¬ recUntil.until_date = none ∧
    ¬ (19754 : Int) < dateOf (dayTimeMin 19723) ∧
    (get_rule recUntil).until_date = some 19754 ∧
    occurrence_between genEmpty evUntil [] (dayTimeMin 19723) (dayTimeMax 19753)
      = .error .duplicateUntilKwarg :=
  ⟨rfl, rfl, by decide, by decide, rfl, by decide⟩

/-- C2: when a persisted override exists whose original dates equal the
candidate slot, the per-slot materialization step returns that persisted
record itself (hence its current fields and real id), never a fresh
transient; the lookup constrains only the original dates, so the returned
record is characterized by original identity alone. -/
theorem override_precedence (ev : Event) (st : List Occurrence) (s : Int)
    (hper : ∀ x ∈ st, x.id.isSome = true)
    (hex : ∃ x ∈ st, x.original_start_date = s ∧
      x.original_end_date = s + (ev.end_date - ev.start_date)) :
    ∃ o ∈ st, (create_occurrence ev st s none).1 = o ∧ o.id.isSome = true ∧
      o.original_start_date = s ∧
      o.original_end_date = s + (ev.end_date - ev.start_date) := by
  have hsome : (is_occurrence_saved st s (s + (ev.end_date - ev.start_date))).isSome
      = true := by
    unfold is_occurrence_saved
    rw [List.find?_isSome]
    obtain ⟨x, hx, h1, h2⟩ := hex
    exact ⟨x, hx, by simp [h1, h2]⟩
  obtain ⟨o, ho⟩ := Option.isSome_iff_exists.mp hsome
  have hmem : o ∈ st := List.mem_of_find?_eq_some ho
  have hp := List.find?_some ho
  simp only [decide_eq_true_eq] at hp
  refine ⟨o, hmem, ?_, hper o hmem, hp.1, hp.2⟩
  rw [create_occurrence_eq_saved ho]

/-- Witness for C2: the override ovEdited of the slot (0, 60), whose current
start was moved to 30, is the record returned for that slot. -/
theorem override_precedence_witness :
    ∃ o ∈ [ovEdited], (create_occurrence evPlain [ovEdited] 0 none).1 = o ∧
      o.id.isSome = true ∧ o.original_start_date = 0 ∧
      o.original_end_date = 0 + (evPlain.end_date - evPlain.start_date) :=
  override_precedence evPlain [ovEdited] 0 (by decide)
    ⟨ovEdited, by simp, by decide, by decide⟩

/-- C10: a persisted override (carrying a primary key, within a saved set
with no duplicate ids) appears at most once in any successful result of
occurrence_between: consumption removes it from the leftover scan. -/
theorem override_at_most_once (gen : RGen) (ev : Event) (st : List Occurrence)
    (lo hi : Int) (o : Occurrence) (n : Nat) (res : List Occurrence)
    (hid : o.id = some n) (hnd : (st.map Occurrence.id).Nodup)
    (hres : occurrence_between gen ev st lo hi = .ok res) :
    res.count o ≤ 1 := by
  have hcap : st.count o ≤ 1 :=
    (List.nodup_iff_count_le_one.mp (List.Nodup.of_map Occurrence.id hnd)) o
  unfold occurrence_between at hres
  cases hrec : ev.recurrence with
  | none =>
    simp only [hrec] at hres
    by_cases hov : ev.start_date < hi ∧ ev.end_date > lo
    · rw [if_pos hov] at hres
      injection hres with h
      subst h
      simp [List.count_cons]
      split <;> omega
    · rw [if_neg hov] at hres
      injection hres with h
      subst h
      simp
  | some r =>
    simp only [hrec] at hres
    by_cases hstart : ev.start_date > hi
    · rw [if_pos hstart] at hres
      injection hres with h
      subst h
      simp
    · rw [if_neg hstart] at hres
      cases hu : r.until_date with
      | some u =>
        simp only [hu] at hres
        by_cases hlt : u < dateOf lo
        · rw [if_pos hlt] at hres
          injection hres with h
          subst h
          simp
        · rw [if_neg hlt] at hres
          exact Except.noConfusion hres
      | none =>
        simp only [hu] at hres
        injection hres with h
        subst h
        rw [List.count_append]
        have hcnt := expandSlots_count ev lo hi hid
          (gen ev.start_date hi (get_rule r)) st hnd
        have hfil : (occurrence_in_range
            (expandSlots ev lo hi (gen ev.start_date hi (get_rule r)) st).2 lo hi).count o
            ≤ (expandSlots ev lo hi (gen ev.start_date hi (get_rule r)) st).2.count o := by
          unfold occurrence_in_range
          exact (List.filter_sublist _).count_le o
        omega

/-- Witness for C10: evaluated at evDaily with the single slot 0 and the
orphan override, the result holds ovOrphan exactly once, hence at most
once. -/
theorem override_at_most_once_witness :
    ([trDaily0, ovOrphan] : List Occurrence).count ovOrphan ≤ 1 :=
  override_at_most_once genOne evDaily [ovOrphan] 0 1000 ovOrphan 2
    [trDaily0, ovOrphan] rfl (by decide) (by decide)

/-- C3 (amended): for a recurring event that is not short-circuited (no
until date, start not after the window), a persisted override left
unconsumed by the loop whose current dates lie inside the window appears in
the result exactly once; the result is exactly the generated part followed
by the in-range leftovers, and the leftovers keep the stored order (the
final saved set is a sublist of the input saved set); no global re-sort
happens. -/
theorem orphan_retention_exactly_once (gen : RGen) (ev : Event) (r : Recurrence)
    (st : List Occurrence) (lo hi : Int) (o : Occurrence) (n : Nat)
    (hrec : ev.recurrence = some r) (hu : r.until_date = none)
    (hstart : ¬ ev.start_date > hi) (hid : o.id = some n)
    (hnd : (st.map Occurrence.id).Nodup)
    (hleft : o ∈ (expandSlots ev lo hi (gen ev.start_date hi (get_rule r)) st).2)
    (hlo : lo ≤ o.start_date) (hhi : o.end_date ≤ hi) :
    occurrence_between gen ev st lo hi =
      .ok ((expandSlots ev lo hi (gen ev.start_date hi (get_rule r)) st).1 ++
        occurrence_in_range
          (expandSlots ev lo hi (gen ev.start_date hi (get_rule r)) st).2 lo hi) ∧
    ((expandSlots ev lo hi (gen ev.start_date hi (get_rule r)) st).1 ++
      occurrence_in_range
        (expandSlots ev lo hi (gen ev.start_date hi (get_rule r)) st).2 lo hi).count o
      = 1 ∧
    ((expandSlots ev lo hi (gen ev.start_date hi (get_rule r)) st).2).Sublist st := by
  have hcnt := expandSlots_count ev lo hi hid (gen ev.start_date hi (get_rule r)) st hnd
  have hcap : st.count o ≤ 1 :=
    (List.nodup_iff_count_le_one.mp (List.Nodup.of_map Occurrence.id hnd)) o
  have hpos : 0 < ((expandSlots ev lo hi (gen ev.start_date hi (get_rule r)) st).2).count o :=
    List.count_pos_iff.mpr hleft
  have hfil : (occurrence_in_range
      (expandSlots ev lo hi (gen ev.start_date hi (get_rule r)) st).2 lo hi).count o
      = ((expandSlots ev lo hi (gen ev.start_date hi (get_rule r)) st).2).count o := by
    unfold occurrence_in_range
    exact List.count_filter (decide_eq_true ⟨hlo, hhi⟩)
  refine ⟨?_, ?_, expandSlots_sublist ev lo hi _ st⟩
  · unfold occurrence_between
    simp only [hrec, hu]
    rw [if_neg hstart]
  · rw [List.count_append, hfil]
    omega

/-- Witness for C3 (amended): evaluated at evDaily with the single slot 0 and
the orphan override ovOrphan (current dates inside 0 .. 1000), the result is
the generated transient followed by the orphan, which appears exactly once. -/
theorem orphan_retention_witness :
    occurrence_between genOne evDaily [ovOrphan] 0 1000 = .ok [trDaily0, ovOrphan] ∧
    ([trDaily0, ovOrphan] : List Occurrence).count ovOrphan = 1 := by
  have h := orphan_retention_exactly_once genOne evDaily recDaily [ovOrphan] 0 1000
    ovOrphan 2 rfl rfl (by decide) rfl (by decide) (by decide) (by decide) (by decide)
  exact ⟨h.1.trans (by decide), by decide⟩

/-- C3 counterexample: the claim quantifies over every recurring event and
window, but the short-circuit on an event starting after the window returns
an empty result, dropping an unconsumed override whose current dates lie
inside the window: evLate starts after the window 0 .. 1000, ovOrphan lies
inside it with current dates 500 .. 560, yet the result is empty. -/
theorem orphan_retention_short_circuit_cex :
    evLate.recurrence = some recDaily ∧
    occurrence_between genOne evLate [ovOrphan] 0 1000 = .ok [] ∧
    (0 : Int) ≤ ovOrphan.start_date ∧ ovOrphan.end_date ≤ 1000 ∧
    (([] : List Occurrence).count ovOrphan = 0) :=
  ⟨rfl, by decide, by decide, by decide, by decide⟩

/-- C5 (amended): a non-recurring event yields one occurrence when the event
interval overlaps the window and none otherwise; a returned occurrence
always carries the original slot equal to the event dates, and when no
persisted override matches that slot its current dates equal the event dates
as well (a matching override is returned with its own current dates). -/
theorem nonrecurring_containment (gen : RGen) (ev : Event) (st : List Occurrence)
    (lo hi : Int) (hrec : ev.recurrence = none) :
    ∃ res, occurrence_between gen ev st lo hi = .ok res ∧
      res.length = (if ev.start_date < hi ∧ ev.end_date > lo then 1 else 0) ∧
      ∀ o ∈ res, o.original_start_date = ev.start_date ∧
        o.original_end_date = ev.end_date ∧
        (is_occurrence_saved st ev.start_date ev.end_date = none →
          o.start_date = ev.start_date ∧ o.end_date = ev.end_date) := by
  have hed : ev.start_date + (ev.end_date - ev.start_date) = ev.end_date := by ring
  by_cases hov : ev.start_date < hi ∧ ev.end_date > lo
  · refine ⟨[(create_occurrence ev st ev.start_date none).1], ?_, ?_, ?_⟩
    · unfold occurrence_between
      simp only [hrec]
      rw [if_pos hov]
    · rw [if_pos hov]
      rfl
    · intro o ho
      simp only [List.mem_singleton] at ho
      subst ho
      cases h : is_occurrence_saved st ev.start_date
          (ev.start_date + (ev.end_date - ev.start_date)) with
      | some saved =>
        rw [create_occurrence_eq_saved h]
        have hp := List.find?_some h
        simp only [decide_eq_true_eq] at hp
        refine ⟨hp.1, hp.2.trans hed, ?_⟩
        intro hnone
        rw [hed] at h
        rw [h] at hnone
        cases hnone
      | none =>
        rw [create_occurrence_eq_new h]
        exact ⟨rfl, hed, fun _ => ⟨rfl, hed⟩⟩
  · refine ⟨[], ?_, ?_, ?_⟩
    · unfold occurrence_between
      simp only [hrec]
      rw [if_neg hov]
    · rw [if_neg hov]
      rfl
    · intro o ho
      cases ho

/-- Witness for C5 (amended): evPlain with no overrides over the window
-10 .. 100. -/
theorem nonrecurring_containment_witness :
    ∃ res, occurrence_between genEmpty evPlain [] (-10) 100 = .ok res ∧
      res.length = (if evPlain.start_date < 100 ∧ evPlain.end_date > -10 then 1 else 0) ∧
      ∀ o ∈ res, o.original_start_date = evPlain.start_date ∧
        o.original_end_date = evPlain.end_date ∧
        (is_occurrence_saved [] evPlain.start_date evPlain.end_date = none →
          o.start_date = evPlain.start_date ∧ o.end_date = evPlain.end_date) :=
  nonrecurring_containment genEmpty evPlain [] (-10) 100 rfl

/-- C5 counterexample: the claim states the returned occurrence carries the
event start and end, but when a persisted override matches the slot the
result carries the override current dates: ovEdited was moved to start 30
while evPlain starts at 0, and the result holds ovEdited. -/
theorem nonrecurring_current_dates_cex :
    evPlain.recurrence = none ∧
    occurrence_between genEmpty evPlain [ovEdited] (-10) 100 = .ok [ovEdited] ∧
    evPlain.start_date < 100 ∧ evPlain.end_date > -10 ∧
    ¬ ovEdited.start_date = evPlain.start_date :=
  ⟨rfl, by decide, by decide, by decide, by decide⟩

/-! Helper lemmas about the base64 codec and the underscore split. -/

theorem ctos_inv : ∀ s : Nat, s < 64 → charToSextet (sextetToChar s) = some s := by decide

theorem ctos_ne_pad : ∀ s : Nat, s < 64 → ¬ sextetToChar s = padByte := by decide

theorem ctos_keep : ∀ s : Nat, s < 64 →
    ((charToSextet (sextetToChar s)).isSome || sextetToChar s == padByte) = true := by decide

theorem pad_keep : ((charToSextet padByte).isSome || padByte == padByte) = true := by decide

theorem filter_b64encode : ∀ bs : List Nat, (∀ b ∈ bs, b < 256) →
    (b64encode bs).filter (fun c => (charToSextet c).isSome || c == padByte) = b64encode bs
  | [], _ => rfl
  | [b0], h => by
    have h0 : b0 < 256 := h b0 (by simp)
    simp only [b64encode, List.filter_cons, List.filter_nil]
    rw [if_pos (ctos_keep _ (by omega)), if_pos (ctos_keep _ (by omega)),
      if_pos pad_keep, if_pos pad_keep]
  | [b0, b1], h => by
    have h0 : b0 < 256 := h b0 (by simp)
    have h1 : b1 < 256 := h b1 (by simp)
    simp only [b64encode, List.filter_cons, List.filter_nil]
    rw [if_pos (ctos_keep _ (by omega)), if_pos (ctos_keep _ (by omega)),
      if_pos (ctos_keep _ (by omega)), if_pos pad_keep]
  | b0 :: b1 :: b2 :: rest, h => by
    have h0 : b0 < 256 := h b0 (by simp)
    have h1 : b1 < 256 := h b1 (by simp)
    have h2 : b2 < 256 := h b2 (by simp)
    have ih := filter_b64encode rest (fun b hb => h b (by simp [hb]))
    simp only [b64encode, List.filter_cons]
    rw [if_pos (ctos_keep _ (by omega)), if_pos (ctos_keep _ (by omega)),
      if_pos (ctos_keep _ (by omega)), if_pos (ctos_keep _ (by omega)), ih]

theorem quadDecode_b64encode : ∀ bs : List Nat, (∀ b ∈ bs, b < 256) →
    quadDecode (b64encode bs) = some bs
  | [], _ => rfl
  | [b0], h => by
    have h0 : b0 < 256 := h b0 (by simp)
    have e0 := ctos_inv (b0 / 4) (by omega)
    have e1 := ctos_inv (b0 % 4 * 16) (by omega)
    simp only [b64encode, quadDecode, e0, e1]
    simp only [if_pos rfl, and_self, ite_true]
    simp only [Option.some.injEq, List.cons.injEq, and_true]
    omega
  | [b0, b1], h => by
    have h0 : b0 < 256 := h b0 (by simp)
    have h1 : b1 < 256 := h b1 (by simp)
    have e0 := ctos_inv (b0 / 4) (by omega)
    have e1 := ctos_inv (b0 % 4 * 16 + b1 / 16) (by omega)
    have e2 := ctos_inv (b1 % 16 * 4) (by omega)
    have ne2 := ctos_ne_pad (b1 % 16 * 4) (by omega)
    simp only [b64encode, quadDecode, e0, e1]
    rw [if_neg ne2]
    simp only [e2]
    simp only [if_pos rfl, ite_true]
    simp only [Option.some.injEq, List.cons.injEq, and_true]
    constructor <;> omega
  | b0 :: b1 :: b2 :: rest, h => by
    have h0 : b0 < 256 := h b0 (by simp)
    have h1 : b1 < 256 := h b1 (by simp)
    have h2 : b2 < 256 := h b2 (by simp)
    have e0 := ctos_inv (b0 / 4) (by omega)
    have e1 := ctos_inv (b0 % 4 * 16 + b1 / 16) (by omega)
    have e2 := ctos_inv (b1 % 16 * 4 + b2 / 64) (by omega)
    have e3 := ctos_inv (b2 % 64) (by omega)
    have ne2 := ctos_ne_pad (b1 % 16 * 4 + b2 / 64) (by omega)
    have ne3 := ctos_ne_pad (b2 % 64) (by omega)
    have ih := quadDecode_b64encode rest (fun b hb => h b (by simp [hb]))
    simp only [b64encode, quadDecode, e0, e1]
    rw [if_neg ne2]
    simp only [e2]
    rw [if_neg ne3]
    simp only [e3, ih, Option.map_some]
    have hb0 : b0 / 4 * 4 + (b0 % 4 * 16 + b1 / 16) / 16 = b0 := by omega
    have hb1 : (b0 % 4 * 16 + b1 / 16) % 16 * 16 + (b1 % 16 * 4 + b2 / 64) / 4 = b1 := by
      omega
    have hb2 : (b1 % 16 * 4 + b2 / 64) % 4 * 64 + b2 % 64 = b2 := by omega
    rw [hb0, hb1, hb2]
    rfl

theorem b64_roundtrip (bs : List Nat) (h : ∀ b ∈ bs, b < 256) :
    pyUrlsafeB64decode (b64encode bs) = some bs := by
  unfold pyUrlsafeB64decode
  rw [filter_b64encode bs h, quadDecode_b64encode bs h]

theorem splitUnderscore_no_sep : ∀ l : List Nat, underscore ∉ l →
    splitUnderscore l = [l]
  | [], _ => rfl
  | c :: rest, h => by
    have hc : ¬ c = underscore := by
      intro e
      exact h (by simp [e])
    have ih := splitUnderscore_no_sep rest (fun m => h (List.mem_cons_of_mem _ m))
    simp only [splitUnderscore]
    rw [if_neg hc, ih]

theorem splitUnderscore_append_sep : ∀ (a m : List Nat), underscore ∉ a →
    splitUnderscore (a ++ underscore :: m) = a :: splitUnderscore m
  | [], m, _ => by
    simp [splitUnderscore]
  | c :: a, m, h => by
    have hc : ¬ c = underscore := by
      intro e
      exact h (by simp [e])
    have ih := splitUnderscore_append_sep a m (fun hm => h (List.mem_cons_of_mem _ hm))
    simp only [List.cons_append, splitUnderscore, List.append_eq]
    rw [if_neg hc, ih]

/-- C4: encoding a triple of underscore-free byte strings as a unique key
and decoding it back recovers the joined payload, and splitting the payload
on underscores recovers exactly the three original fields. -/
theorem unique_key_roundtrip (a b c : List Nat)
    (hab : ∀ x ∈ a, x < 256) (hbb : ∀ x ∈ b, x < 256) (hcb : ∀ x ∈ c, x < 256)
    (hna : underscore ∉ a) (hnb : underscore ∉ b) (hnc : underscore ∉ c) :
    pyUrlsafeB64decode (get_unique_key a b c)
      = some (a ++ underscore :: (b ++ underscore :: c)) ∧
    splitUnderscore (a ++ underscore :: (b ++ underscore :: c)) = [a, b, c] := by
  constructor
  · refine b64_roundtrip _ ?_
    intro x hx
    simp only [List.mem_append, List.mem_cons] at hx
    rcases hx with hx | hx | hx
    · exact hab x hx
    · rw [hx]
      decide
    · rcases hx with hx | hx | hx
      · exact hbb x hx
      · rw [hx]
        decide
      · exact hcb x hx
  · rw [splitUnderscore_append_sep a _ hna, splitUnderscore_append_sep b _ hnb,
      splitUnderscore_no_sep c hnc]

/-- Witness for C4: the triple of renderings 1, 2, 3. -/
theorem unique_key_roundtrip_witness :
    pyUrlsafeB64decode (get_unique_key [49] [50] [51])
      = some ([49] ++ underscore :: ([50] ++ underscore :: [51])) ∧
    splitUnderscore ([49] ++ underscore :: ([50] ++ underscore :: [51]))
      = [[49], [50], [51]] :=
  unique_key_roundtrip [49] [50] [51] (by decide) (by decide) (by decide)
    (by decide) (by decide) (by decide)

/-- C9 (amended): the byte encoding used for unique keys is base64, whose
output length is four characters per started group of three input bytes:
4 * ((n + 2) / 3) for an input of n bytes; it is not length-preserving. -/
theorem b64encode_length : ∀ bs : List Nat,
    (b64encode bs).length = 4 * ((bs.length + 2) / 3)
  | [] => rfl
  | [_] => by
    simp only [b64encode, List.length_cons, List.length_nil]
  | [_, _] => by
    simp only [b64encode, List.length_cons, List.length_nil]
  | b0 :: b1 :: b2 :: rest => by
    have ih := b64encode_length rest
    simp only [b64encode, List.length_cons, ih]
    omega

/-- C9 counterexample: the five-byte payload 1_a_b encodes to eight
characters, so the encoding does not preserve length. -/
theorem b64_length_preserving_cex :
    ¬ (b64encode [49, 95, 97, 95, 98]).length
      = ([49, 95, 97, 95, 98] : List Nat).length := by decide

/-- C6 (amended): when no persisted occurrence matches the supplied id for
the event, the upsert fails exactly when the key does not base64-decode or
the decoded payload does not split into exactly three underscore fields (and
then no row is produced); otherwise it creates a row for the request event
carrying the second and third decoded fields as original dates plus the
submitted fields; the first decoded field, the encoded event id, is ignored. -/
theorem upsert_malformed_key (ev : Event) (db : List Occurrence) (vd : UpsertData)
    (h : occLookup ev db vd.occurrence_id = none) :
    ((∃ e, occurrenceCreate ev db vd = .error e) ↔
      pyUrlsafeB64decode vd.occurrence_key = none ∨
      ∃ d, pyUrlsafeB64decode vd.occurrence_key = some d ∧
        ¬ (splitUnderscore d).length = 3) ∧
    (∀ res, occurrenceCreate ev db vd = .ok res →
      ∃ d eid os oe, pyUrlsafeB64decode vd.occurrence_key = some d ∧
        splitUnderscore d = [eid, os, oe] ∧
        res = .created { event_id := ev.id, original_start_s := os,
                         original_end_s := oe, title := vd.title,
                         description := vd.description, start_date := vd.start_date,
                         end_date := vd.end_date, cancelled := vd.cancelled }) := by
  have hun : occurrenceCreate ev db vd =
      (match pyUrlsafeB64decode vd.occurrence_key with
       | none => .error .malformedKey
       | some decoded =>
         match splitUnderscore decoded with
         | [_eid, os, oe] =>
           .ok (.created { event_id := ev.id, original_start_s := os,
                           original_end_s := oe, title := vd.title,
                           description := vd.description, start_date := vd.start_date,
                           end_date := vd.end_date, cancelled := vd.cancelled })
         | _ => .error .malformedKey) := by
    unfold occurrenceCreate
    rw [h]
  rw [hun]
  split
  · rename_i heq
    refine ⟨⟨fun _ => Or.inl heq, fun _ => ⟨.malformedKey, rfl⟩⟩, ?_⟩
    intro res hres
    exact Except.noConfusion hres
  · rename_i d heq
    split
    · rename_i x1 x2 x3 heq2
      constructor
      · constructor
        · rintro ⟨e, he⟩
          exact Except.noConfusion he
        · rintro (hnone | ⟨d2, hd2, hlen⟩)
          · rw [heq] at hnone
            cases hnone
          · rw [heq] at hd2
            injection hd2 with hd2
            subst hd2
            rw [heq2] at hlen
            simp at hlen
      · intro res hres
        injection hres with hres
        exact ⟨d, x1, x2, x3, heq, heq2, hres.symm⟩
    · rename_i hne
      refine ⟨⟨fun _ => Or.inr ⟨d, heq, ?_⟩, fun _ => ⟨.malformedKey, rfl⟩⟩, ?_⟩
      · intro hl
        obtain ⟨a, b, c, habc⟩ := List.length_eq_three.mp hl
        exact hne a b c habc
      · intro res hres
        exact Except.noConfusion hres

/-- Witness for C6 (amended): a two-character key cannot base64-decode, so
the upsert against evPlain is rejected. -/
theorem upsert_malformed_key_witness :
    ∃ e, occurrenceCreate evPlain [] vdBadKey = .error e :=
  (upsert_malformed_key evPlain [] vdBadKey rfl).1.mpr (Or.inl (by decide))

/-- C6 counterexample: the claim states the created row carries the decoded
eventId; but for a key encoding 999_a_b submitted against event 1 the
created row is attached to event 1, the decoded event id 999 being ignored. -/
theorem upsert_decoded_event_id_cex :
    pyUrlsafeB64decode vdForeign.occurrence_key = some [57, 57, 57, 95, 97, 95, 98] ∧
    splitUnderscore [57, 57, 57, 95, 97, 95, 98] = [[57, 57, 57], [97], [98]] ∧
    occurrenceCreate evPlain [] vdForeign = .ok (.created pendForeign) ∧
    pendForeign.event_id = 1 ∧ ¬ (1 : Nat) = 999 :=
  ⟨by decide, by decide, by decide, rfl, by decide⟩

/-- C7: a CUSTOM query is rejected exactly when a bound is missing or the
from date exceeds the to date, and a rejected query produces the validation
error itself, independently of the event collection: no window resolution,
expansion or materialization work contributes to the response. -/
theorem custom_period_validation (p : RequestParams) (hp : p.period = .CUSTOM) :
    ((∃ e, paramValidate p = .error e) ↔
      p.from_date = none ∨ p.to_date = none ∨
      ∃ f t, p.from_date = some f ∧ p.to_date = some t ∧ f > t) ∧
    (∀ e, paramValidate p = .error e →
      ∀ (gen : RGen) (today : Civil) (events events' : List (Event × List Occurrence)),
        listUpcoming gen today p events = .error (.validation e) ∧
        listUpcoming gen today p events = listUpcoming gen today p events') := by
  have hval : paramValidate p =
      (match p.from_date, p.to_date with
       | some f, some t =>
         if f > t then .error .invalidDateRange else .ok p
       | _, _ => .error .datesRequired) := by
    unfold paramValidate
    rw [hp]
  constructor
  · rw [hval]
    cases hf : p.from_date with
    | none =>
      exact ⟨fun _ => Or.inl rfl, fun _ => ⟨.datesRequired, rfl⟩⟩
    | some f =>
      cases ht : p.to_date with
      | none =>
        exact ⟨fun _ => Or.inr (Or.inl rfl), fun _ => ⟨.datesRequired, rfl⟩⟩
      | some t =>
        by_cases hgt : f > t
        · refine ⟨fun _ => Or.inr (Or.inr ⟨f, t, rfl, rfl, hgt⟩),
            fun _ => ⟨.invalidDateRange, ?_⟩⟩
          show (if f > t then Except.error ValidationErr.invalidDateRange
            else Except.ok p) = _
          rw [if_pos hgt]
        · constructor
          · rintro ⟨e, he⟩
            rw [show (match (some f : Option Int), (some t : Option Int) with
              | some f2, some t2 =>
                if f2 > t2 then Except.error ValidationErr.invalidDateRange
                else Except.ok p
              | _, _ => Except.error ValidationErr.datesRequired)
              = (if f > t then Except.error ValidationErr.invalidDateRange
                 else Except.ok p) from rfl, if_neg hgt] at he
            exact Except.noConfusion he
          · rintro (h1 | h2 | ⟨f2, t2, hf2, ht2, hgt2⟩)
            · cases h1
            · cases h2
            · injection hf2 with hf2
              injection ht2 with ht2
              subst hf2
              subst ht2
              exact absurd hgt2 hgt
  · intro e he gen today events events'
    constructor
    · unfold listUpcoming
      rw [he]
    · unfold listUpcoming
      rw [he]

/-- Witness for C7: the CUSTOM query from 2024-01-01 to 2023-12-01 is
rejected. -/
theorem custom_period_validation_witness :
    ∃ e, paramValidate pCustomBad = .error e :=
  (custom_period_validation pCustomBad rfl).1.mpr
    (Or.inr (Or.inr ⟨daysFromCivil { y := 2024, m := 1, d := 1 },
      daysFromCivil { y := 2023, m := 12, d := 1 }, rfl, rfl, by decide⟩))

/-- C8: the WEEK window runs from today minus isoweekday(today) days at
start of day to six days later at end of day; in particular, when today is a
Monday the window starts on the previous day, which is a Sunday: the formula
is reproduced as written, not corrected. -/
theorem week_period_window (today : Civil) (p : RequestParams)
    (hp : p.period = .WEEK) :
    period_days today p =
      .ok { from_date := dayTimeMin (daysFromCivil today - isoweekday (daysFromCivil today))
            to_date := dayTimeMax (daysFromCivil today - isoweekday (daysFromCivil today) + 6) } ∧
    (isoweekday (daysFromCivil today) = 1 →
      daysFromCivil today - isoweekday (daysFromCivil today) = daysFromCivil today - 1 ∧
      isoweekday (daysFromCivil today - 1) = 7) := by
  constructor
  · unfold period_days
    rw [hp]
  · intro h1
    refine ⟨by rw [h1], ?_⟩
    unfold isoweekday at h1 ⊢
    omega

/-- Witness for C8: 2024-01-01 (day number 19723) is a Monday; the WEEK
window starts at day 19722 (2023-12-31), a Sunday, and ends at day 19728. -/
theorem week_period_window_witness :
    isoweekday (daysFromCivil { y := 2024, m := 1, d := 1 }) = 1 ∧
    period_days { y := 2024, m := 1, d := 1 } pWeek =
      .ok { from_date := dayTimeMin 19722, to_date := dayTimeMax 19728 } ∧
    isoweekday 19722 = 7 := by
  have h := week_period_window { y := 2024, m := 1, d := 1 } pWeek rfl
  exact ⟨by decide, h.1.trans (by decide), by decide⟩

end Landelayo
